import Mathlib

/-!
Shallow embedding of the sei_parser repository (sei_parser.py, sei_parser2.py,
simple_sei_parser.py).  Bytes are modelled as `List Nat` (each element a byte
value 0..255 as produced by Python's `bytes` indexing); byte buffers are read
with `List.getD`/`List.drop`/`List.take`, matching Python's slicing semantics
(out-of-range slices clamp, never raise).  While-loops over a byte offset are
modelled with an explicit fuel parameter; each wrapper supplies fuel
`length + 1`, which is sufficient because every loop iteration of the sources
either terminates the loop or advances the offset by at least one byte.
-/

/-- Codec tag: the sources mark each record with the string H.264 or H.265. -/
inductive Codec where
  | h264 : Codec
  | h265 : Codec
deriving DecidableEq

/-- Python slice data[a:b] (for a ≤ b; clamps at the end of the buffer). -/
def pySlice (data : List Nat) (a b : Nat) : List Nat :=
  (data.drop a).take (b - a)

/-- Big-endian 32-bit value of four bytes, as struct.unpack of four bytes. -/
def be32 (a b c d : Nat) : Nat :=
  ((a * 256 + b) * 256 + c) * 256 + d

/-- Big-endian 32-bit read at offset i, as struct.unpack at data[i:i+4]. -/
def be32at (data : List Nat) (i : Nat) : Nat :=
  be32 (data.getD i 0) (data.getD (i + 1) 0) (data.getD (i + 2) 0) (data.getD (i + 3) 0)

/-- Big-endian 24-bit read at offset i: the sources prepend a zero byte and
unpack four bytes, which equals the three-byte big-endian value. -/
def be24at (data : List Nat) (i : Nat) : Nat :=
  (data.getD i 0 * 256 + data.getD (i + 1) 0) * 256 + data.getD (i + 2) 0

/-- Big-endian 64-bit read at offset i, as struct.unpack of data[i:i+8]. -/
def be64at (data : List Nat) (i : Nat) : Nat :=
  (((((((data.getD i 0 * 256 + data.getD (i + 1) 0) * 256 + data.getD (i + 2) 0) * 256
    + data.getD (i + 3) 0) * 256 + data.getD (i + 4) 0) * 256 + data.getD (i + 5) 0) * 256
    + data.getD (i + 6) 0) * 256 + data.getD (i + 7) 0)

/-- Extended 0xFF-continuation type/size decoding, as the loops of
sei_parser.py lines 401..422 and simple_sei_parser.py lines 70..91: add 255
for every leading 0xFF byte consumed, then add and consume the next byte;
if the buffer runs out before a terminal byte is found the loop breaks,
modelled by none. -/
def decodeExt : List Nat → Option (Nat × List Nat)
  | [] => none
  | b :: rest =>
    if b = 255 then (decodeExt rest).map (fun pr => (pr.1 + 255, pr.2))
    else some (b, rest)

/-- Extended 0xFF-continuation decoding as written in sei_parser2.py lines
26..42: same 255-per-0xFF accumulation, but when the buffer runs out before a
terminal byte the partial sum is kept and parsing continues (the source
guards the terminal-byte read with an if instead of breaking). -/
def decodeExt2 : List Nat → Nat × List Nat
  | [] => (0, [])
  | b :: rest =>
    if b = 255 then
      let pr := decodeExt2 rest
      (pr.1 + 255, pr.2)
    else (b, rest)

/-- Modelled from the spec: the continuation-byte encoding law of section 8,
encode (255*k + r) = (0xFF)*k ++ r for 0 ≤ r < 255.  This is the reference
re-encoder for the round-trip property; no encoder exists in the sources. -/
def encodeExt (v : Nat) : List Nat :=
  List.replicate (v / 255) 255 ++ [v % 255]

/-- JSON value produced by the model of Python json.loads.  Numbers keep
their lexeme so that no floating-point semantics enters the model. -/
inductive JVal where
  | jnull : JVal
  | jbool : Bool → JVal
  | jnum : List Nat → JVal
  | jstr : List Nat → JVal
  | jarr : List JVal → JVal
  | jobj : List (List Nat × JVal) → JVal

/-- JSON whitespace per RFC 8259, as accepted by Python json.loads. -/
def isJsonWs (c : Nat) : Bool :=
  c == 32 || c == 9 || c == 10 || c == 13

/-- Drop leading JSON whitespace. -/
def skipWs (s : List Nat) : List Nat :=
  s.dropWhile isJsonWs

/-- ASCII decimal digit test. -/
def isDigit (c : Nat) : Bool :=
  48 ≤ c && c ≤ 57

/-- Value of an ASCII hex digit, if it is one. -/
def hexVal (c : Nat) : Option Nat :=
  if 48 ≤ c ∧ c ≤ 57 then some (c - 48)
  else if 65 ≤ c ∧ c ≤ 70 then some (c - 55)
  else if 97 ≤ c ∧ c ≤ 102 then some (c - 87)
  else none

/-- Single-character JSON string escapes. -/
def escChar (c : Nat) : Option Nat :=
  if c = 34 then some 34
  else if c = 92 then some 92
  else if c = 47 then some 47
  else if c = 98 then some 8
  else if c = 102 then some 12
  else if c = 110 then some 10
  else if c = 114 then some 13
  else if c = 116 then some 9
  else none

/-- Body of a JSON string after the opening quote: returns the decoded
content and the remainder after the closing quote.  Unescaped control
characters are rejected, as in Python json.loads. -/
def parseStringBody : List Nat → Option (List Nat × List Nat)
  | [] => none
  | c :: rest =>
    if c = 34 then some ([], rest)
    else if c = 92 then
      match rest with
      | [] => none
      | e :: rest2 =>
        if e = 117 then
          match rest2 with
          | h1 :: h2 :: h3 :: h4 :: rest3 =>
            match hexVal h1, hexVal h2, hexVal h3, hexVal h4 with
            | some x1, some x2, some x3, some x4 =>
              (parseStringBody rest3).map
                (fun pr => ((((x1 * 16 + x2) * 16 + x3) * 16 + x4) :: pr.1, pr.2))
            | _, _, _, _ => none
          | _ => none
        else
          (escChar e).bind
            (fun ch => (parseStringBody rest2).map (fun pr => (ch :: pr.1, pr.2)))
    else if c < 32 then none
    else (parseStringBody rest).map (fun pr => (c :: pr.1, pr.2))

/-- Span of leading decimal digits. -/
def digitSpan (s : List Nat) : List Nat × List Nat :=
  (s.takeWhile isDigit, s.dropWhile isDigit)

/-- Integer part of a JSON number: a single 0, or a nonzero digit followed by
digits (strict JSON forbids other leading zeros). -/
def parseIntPart : List Nat → Option (List Nat × List Nat)
  | [] => none
  | c :: rest =>
    if c = 48 then some ([48], rest)
    else if isDigit c then
      let pr := digitSpan rest
      some (c :: pr.1, pr.2)
    else none

/-- Optional fraction part of a JSON number. -/
def parseFracPart : List Nat → Option (List Nat × List Nat)
  | 46 :: rest =>
    let pr := digitSpan rest
    if pr.1 = [] then none else some (46 :: pr.1, pr.2)
  | s => some ([], s)

/-- Optional exponent part of a JSON number. -/
def parseExpPart : List Nat → Option (List Nat × List Nat)
  | [] => some ([], [])
  | c :: rest =>
    if c = 101 ∨ c = 69 then
      let pr2 : List Nat × List Nat :=
        match rest with
        | 43 :: r => ([43], r)
        | 45 :: r => ([45], r)
        | r => ([], r)
      let pr := digitSpan pr2.2
      if pr.1 = [] then none else some (c :: (pr2.1 ++ pr.1), pr.2)
    else some ([], c :: rest)

/-- JSON number lexeme: optional minus, integer part, optional fraction and
exponent. -/
def parseNumber (s : List Nat) : Option (List Nat × List Nat) :=
  let pr0 : List Nat × List Nat :=
    match s with
    | 45 :: r => ([45], r)
    | r => ([], r)
  (parseIntPart pr0.2).bind fun ip =>
    (parseFracPart ip.2).bind fun fp =>
      (parseExpPart fp.2).map fun ep => (pr0.1 ++ ip.1 ++ fp.1 ++ ep.1, ep.2)

/-- Match a fixed token at the head of the input. -/
def stripTok (tok s : List Nat) : Option (List Nat) :=
  if s.take tok.length = tok then some (s.drop tok.length) else none

/-- ASCII tail nfinity of the Infinity literal accepted by Python json. -/
def infinityTail : List Nat := [110, 102, 105, 110, 105, 116, 121]

mutual
/-- Model of one JSON value parse (Python json.loads grammar, with the NaN
and Infinity extensions Python accepts); fuel bounds the recursion depth and
is supplied as input length + 1, enough because every nested value consumes
at least one character. -/
def parseValue : Nat → List Nat → Option (JVal × List Nat)
  | 0, _ => none
  | fuel + 1, s =>
    match skipWs s with
    | [] => none
    | c :: rest =>
      if c = 123 then parseObjBody fuel rest
      else if c = 91 then parseArrBody fuel rest
      else if c = 34 then (parseStringBody rest).map (fun pr => (JVal.jstr pr.1, pr.2))
      else if c = 116 then (stripTok [114, 117, 101] rest).map (fun r => (JVal.jbool true, r))
      else if c = 102 then
        (stripTok [97, 108, 115, 101] rest).map (fun r => (JVal.jbool false, r))
      else if c = 110 then (stripTok [117, 108, 108] rest).map (fun r => (JVal.jnull, r))
      else if c = 78 then (stripTok [97, 78] rest).map (fun r => (JVal.jnum [78, 97, 78], r))
      else if c = 73 then
        (stripTok infinityTail rest).map (fun r => (JVal.jnum (73 :: infinityTail), r))
      else if c = 45 ∧ rest.take 1 = [73] then
        (stripTok infinityTail (rest.drop 1)).map
          (fun r => (JVal.jnum (45 :: 73 :: infinityTail), r))
      else if c = 45 ∨ isDigit c then
        (parseNumber (c :: rest)).map (fun pr => (JVal.jnum pr.1, pr.2))
      else none

/-- Array body after the opening bracket. -/
def parseArrBody : Nat → List Nat → Option (JVal × List Nat)
  | 0, _ => none
  | fuel + 1, s =>
    match skipWs s with
    | 93 :: rest => some (JVal.jarr [], rest)
    | s2 =>
      (parseValue fuel s2).bind fun pr =>
        (parseArrTail fuel pr.2).map fun tl => (JVal.jarr (pr.1 :: tl.1), tl.2)

/-- Array continuation: comma-separated values until the closing bracket. -/
def parseArrTail : Nat → List Nat → Option (List JVal × List Nat)
  | 0, _ => none
  | fuel + 1, s =>
    match skipWs s with
    | 93 :: rest => some ([], rest)
    | 44 :: rest =>
      (parseValue fuel rest).bind fun pr =>
        (parseArrTail fuel pr.2).map fun tl => (pr.1 :: tl.1, tl.2)
    | _ => none

/-- Object body after the opening brace. -/
def parseObjBody : Nat → List Nat → Option (JVal × List Nat)
  | 0, _ => none
  | fuel + 1, s =>
    match skipWs s with
    | 125 :: rest => some (JVal.jobj [], rest)
    | 34 :: rest =>
      (parseStringBody rest).bind fun key =>
        (parseObjColon fuel key.2).bind fun pr =>
          (parseObjTail fuel pr.2).map fun tl => (JVal.jobj ((key.1, pr.1) :: tl.1), tl.2)
    | _ => none

/-- Colon and value of one object member. -/
def parseObjColon : Nat → List Nat → Option (JVal × List Nat)
  | 0, _ => none
  | fuel + 1, s =>
    match skipWs s with
    | 58 :: rest => parseValue fuel rest
    | _ => none

/-- Object continuation: comma-separated members until the closing brace. -/
def parseObjTail : Nat → List Nat → Option (List (List Nat × JVal) × List Nat)
  | 0, _ => none
  | fuel + 1, s =>
    match skipWs s with
    | 125 :: rest => some ([], rest)
    | 44 :: rest =>
      match skipWs rest with
      | 34 :: rest2 =>
        (parseStringBody rest2).bind fun key =>
          (parseObjColon fuel key.2).bind fun pr =>
            (parseObjTail fuel pr.2).map fun tl => ((key.1, pr.1) :: tl.1, tl.2)
      | _ => none
    | _ => none
end

/-- Model of Python json.loads on a decoded string (list of code points):
parse one JSON value and require only whitespace after it; any failure is
none, which the sources treat as a silently absent json view. -/
def json_loads (s : List Nat) : Option JVal :=
  match parseValue (s.length + 1) s with
  | some pr => if skipWs pr.2 = [] then some pr.1 else none
  | none => none

/-- Continuation byte test for UTF-8. -/
def isCont (c : Nat) : Bool :=
  128 ≤ c && c ≤ 191

/-- First-continuation-byte ranges of three-byte UTF-8 sequences (excluding
overlong forms and surrogates, as CPython does). -/
def utf8Cont1Ok (b c1 : Nat) : Bool :=
  if b = 224 then 160 ≤ c1 && c1 ≤ 191
  else if b = 237 then 128 ≤ c1 && c1 ≤ 159
  else isCont c1

/-- First-continuation-byte ranges of four-byte UTF-8 sequences. -/
def utf8Cont1Ok4 (b c1 : Nat) : Bool :=
  if b = 240 then 144 ≤ c1 && c1 ≤ 191
  else if b = 244 then 128 ≤ c1 && c1 ≤ 143
  else isCont c1

/-- Model of bytes.decode with errors ignore: decode valid UTF-8 sequences to
code points and skip bytes that start no valid sequence.  On ASCII input this
is the identity on byte values.  Fuel bounds the loop and is supplied as
input length + 1, enough because every step consumes at least one byte. -/
def utf8DecodeIgnoreF : Nat → List Nat → List Nat
  | 0, _ => []
  | _ + 1, [] => []
  | fuel + 1, b :: rest =>
    if b < 128 then b :: utf8DecodeIgnoreF fuel rest
    else if 194 ≤ b ∧ b ≤ 223 then
      match rest with
      | c1 :: rest2 =>
        if isCont c1 then ((b - 192) * 64 + (c1 - 128)) :: utf8DecodeIgnoreF fuel rest2
        else utf8DecodeIgnoreF fuel (c1 :: rest2)
      | [] => []
    else if 224 ≤ b ∧ b ≤ 239 then
      match rest with
      | c1 :: c2 :: rest2 =>
        if utf8Cont1Ok b c1 ∧ isCont c2 then
          ((b - 224) * 4096 + (c1 - 128) * 64 + (c2 - 128)) :: utf8DecodeIgnoreF fuel rest2
        else utf8DecodeIgnoreF fuel (c1 :: c2 :: rest2)
      | r => utf8DecodeIgnoreF fuel r
    else if 240 ≤ b ∧ b ≤ 244 then
      match rest with
      | c1 :: c2 :: c3 :: rest2 =>
        if utf8Cont1Ok4 b c1 ∧ isCont c2 ∧ isCont c3 then
          ((b - 240) * 262144 + (c1 - 128) * 4096 + (c2 - 128) * 64 + (c3 - 128))
            :: utf8DecodeIgnoreF fuel rest2
        else utf8DecodeIgnoreF fuel (c1 :: c2 :: c3 :: rest2)
      | r => utf8DecodeIgnoreF fuel r
    else utf8DecodeIgnoreF fuel rest

/-- Lenient UTF-8 decode on a whole byte string, with sufficient fuel. -/
def utf8DecodeIgnore (l : List Nat) : List Nat :=
  utf8DecodeIgnoreF (l.length + 1) l

/-- Python bytes.rstrip of zero bytes, as the sources clean SEI payloads. -/
def rstripZeros (l : List Nat) : List Nat :=
  (l.reverse.dropWhile (fun b => b == 0)).reverse

/-- One decoded SEI record of sei_parser.py and simple_sei_parser.py: the
dict built at sei_parser.py lines 430..451, restricted to the fields with
parsing content (the hex dump and the name-table lookup are displays of the
same bytes and type).  payload_string models the rstrip-then-decode-ignore
string, which the source always succeeds in computing; payload_json is
present exactly when json.loads succeeds. -/
structure SeiRec where
  codec : Codec
  sei_type : Nat
  size : Nat
  payload : List Nat
  payload_string : List Nat
  payload_json : Option JVal

/-- Build one record as sei_parser.py lines 430..451 does. -/
def mkSeiRec (codec : Codec) (t sz : Nat) (payload : List Nat) : SeiRec :=
  let s := utf8DecodeIgnore (rstripZeros payload)
  { codec := codec, sei_type := t, size := sz, payload := payload,
    payload_string := s, payload_json := json_loads s }

/-- SEI message loop of sei_parser.py lines 397..455 (identical logic at
simple_sei_parser.py lines 66..124): decode type and size with the extended
encoding, clamp the size to the remaining bytes when it overruns, emit the
record and continue past the payload.  Fuel bounds the loop; every iteration
that continues consumes at least two bytes. -/
def seiMessagesF (codec : Codec) : Nat → List Nat → List SeiRec
  | 0, _ => []
  | fuel + 1, p =>
    match decodeExt p with
    | none => []
    | some (t, p1) =>
      match decodeExt p1 with
      | none => []
      | some (s, p2) =>
        let sz := if p2.length < s then p2.length else s
        mkSeiRec codec t sz (p2.take sz) :: seiMessagesF codec fuel (p2.drop sz)

/-- SEI message loop on a full payload, with sufficient fuel. -/
def seiMessages (codec : Codec) (p : List Nat) : List SeiRec :=
  seiMessagesF codec (p.length + 1) p

/-- parse_sei_nalu of sei_parser.py lines 382..456: discard units too short
to hold the codec header plus one byte, then run the message loop on the
bytes after the 1-byte (H.264) or 2-byte (H.265) header. -/
def parse_sei_nalu (codec : Codec) (nalu : List Nat) : List SeiRec :=
  match codec with
  | Codec.h265 => if nalu.length < 3 then [] else seiMessages Codec.h265 (nalu.drop 2)
  | Codec.h264 => if nalu.length < 2 then [] else seiMessages Codec.h264 (nalu.drop 1)

/-- One SEI message as printed by sei_parser2.py parse_sei_message. -/
structure Msg2 where
  sei_type : Nat
  size : Nat
  payload : List Nat
deriving DecidableEq

/-- parse_sei_message of sei_parser2.py lines 19..78: stop at a 0x80 stop
byte; decode type and size with the guarded extended encoding; when the
declared size overruns the remaining bytes print a warning and stop (no
record is emitted for that message); otherwise emit and continue. -/
def parse_sei_messageF : Nat → List Nat → List Msg2
  | 0, _ => []
  | fuel + 1, p =>
    match p with
    | [] => []
    | b :: _ =>
      if b = 128 then []
      else
        let pr1 := decodeExt2 p
        let pr2 := decodeExt2 pr1.2
        if pr2.2.length < pr2.1 then []
        else
          { sei_type := pr1.1, size := pr2.1, payload := pr2.2.take pr2.1 }
            :: parse_sei_messageF fuel (pr2.2.drop pr2.1)

/-- parse_sei_message on a full payload, with sufficient fuel. -/
def parse_sei_message (p : List Nat) : List Msg2 :=
  parse_sei_messageF (p.length + 1) p

/-- Length-prefixed NAL scan of _parse_h264_nalus (sei_parser.py lines
208..235): while at least 4 bytes remain, read a 4-byte big-endian length;
stop if the declared length overruns the buffer; otherwise yield the unit
and continue past it. -/
def lpScanF : Nat → List Nat → List (List Nat)
  | 0, _ => []
  | fuel + 1, a :: b :: c :: d :: rest =>
    let n := be32 a b c d
    if rest.length < n then [] else rest.take n :: lpScanF fuel (rest.drop n)
  | _ + 1, _ => []

/-- Length-prefixed NAL scan on a full buffer, with sufficient fuel. -/
def lpScan (data : List Nat) : List (List Nat) :=
  lpScanF (data.length + 1) data

/-- Modelled from the claim wording of C6 (spec section 4.1): yield exactly
the NAL units whose 4-byte big-endian length fields are fully satisfiable
within the buffer, in order, and stop at the first point where fewer than 4
bytes remain or a declared length would overrun the buffer. -/
def lpSpecF : Nat → List Nat → List (List Nat)
  | 0, _ => []
  | fuel + 1, data =>
    if 4 ≤ data.length then
      let n := be32 (data.getD 0 0) (data.getD 1 0) (data.getD 2 0) (data.getD 3 0)
      if data.length - 4 < n then []
      else (data.drop 4).take n :: lpSpecF fuel ((data.drop 4).drop n)
    else []

/-- Claim-worded length-prefixed scan on a full buffer. -/
def lpSpec (data : List Nat) : List (List Nat) :=
  lpSpecF (data.length + 1) data

/-- NAL-unit slices examined by extract_sei_from_nalus
(simple_sei_parser.py lines 42..60).  The loop guard there is
offset + 4 < len(data), so the length field is read only while at least
five bytes remain. -/
def extractNalusScanF : Nat → List Nat → List (List Nat)
  | 0, _ => []
  | fuel + 1, a :: b :: c :: d :: e :: rest =>
    let n := be32 a b c d
    let r := e :: rest
    if r.length < n then [] else r.take n :: extractNalusScanF fuel (r.drop n)
  | _ + 1, _ => []

/-- NAL-unit slices of extract_sei_from_nalus on a full buffer. -/
def extractNalusScan (data : List Nat) : List (List Nat) :=
  extractNalusScanF (data.length + 1) data

/-- H.264 classification applied to one scanned NAL unit, as in
_parse_h264_nalus lines 225..231 and _parse_h264_stream lines 270..276:
nonempty, nal_type = byte0 and 0x1F, SEI iff 6. -/
def h264SeiOfNalu (nalu : List Nat) : List SeiRec :=
  if 0 < nalu.length ∧ nalu.headD 0 &&& 31 = 6 then parse_sei_nalu Codec.h264 nalu else []

/-- H.265 classification applied to one scanned NAL unit, as in
_parse_h265_stream lines 313..321: at least two bytes,
nal_type = (byte0 shifted right by 1) and 0x3F, SEI iff 39 or 40. -/
def h265SeiOfNalu (nalu : List Nat) : List SeiRec :=
  if 2 ≤ nalu.length ∧ ((nalu.headD 0 >>> 1) &&& 63 = 39 ∨ (nalu.headD 0 >>> 1) &&& 63 = 40)
  then parse_sei_nalu Codec.h265 nalu else []

/-- _parse_h264_nalus of sei_parser.py: length-prefixed scan, then H.264 SEI
classification and decoding of each unit, results concatenated in order. -/
def parse_h264_nalus (data : List Nat) : List SeiRec :=
  (lpScan data).flatMap h264SeiOfNalu

/-- The 3-byte Annex-B start code 00 00 01. -/
def sc3 : List Nat := [0, 0, 1]

/-- The 4-byte Annex-B start code 00 00 00 01. -/
def sc4 : List Nat := [0, 0, 0, 1]

/-- Pattern pat occurs in data at position i (with the whole pattern within
bounds), the success condition of Python bytes.find. -/
def matchAt (data pat : List Nat) (i : Nat) : Prop :=
  (data.drop i).take pat.length = pat

instance (data pat : List Nat) (i : Nat) : Decidable (matchAt data pat i) :=
  inferInstanceAs (Decidable ((data.drop i).take pat.length = pat))

/-- Either start code occurs at position i. -/
def isStartCode (data : List Nat) (i : Nat) : Prop :=
  matchAt data sc3 i ∨ matchAt data sc4 i

instance (data : List Nat) (i : Nat) : Decidable (isStartCode data i) :=
  inferInstanceAs (Decidable (matchAt data sc3 i ∨ matchAt data sc4 i))

/-- First occurrence of pat in the suffix l, as an index into l. -/
def findSuffix (pat : List Nat) : List Nat → Option Nat
  | [] => none
  | b :: rest =>
    if ((b :: rest).take pat.length) = pat then some 0
    else (findSuffix pat rest).map (fun j => j + 1)

/-- Python bytes.find(pat, start): index of the first occurrence of pat at or
after start, none when absent (the sources compare the -1 failure value
before using the index, which the option models). -/
def pyFind (data pat : List Nat) (start : Nat) : Option Nat :=
  (findSuffix pat (data.drop start)).map (fun j => j + start)

/-- Start-code search of _parse_h264_stream lines 246..254 (identical at
_parse_h265_stream lines 291..299): find both the 3-byte and the 4-byte
start code at or after offset and keep the position-minimal hit, recording
its length; (length of data, 0) when neither occurs. -/
def nextStart (data : List Nat) (offset : Nat) : Nat × Nat :=
  let s0 : Nat × Nat := (data.length, 0)
  let s1 : Nat × Nat :=
    match pyFind data sc3 offset with
    | some pos => if pos < s0.1 then (pos, 3) else s0
    | none => s0
  match pyFind data sc4 offset with
  | some pos => if pos < s1.1 then (pos, 4) else s1
  | none => s1

/-- NAL-unit end search of _parse_h264_stream lines 259..266: the minimal
position at or after naluStart where either start code occurs, or the end of
the buffer. -/
def naluEnd (data : List Nat) (naluStart : Nat) : Nat :=
  let e1 : Nat := data.length
  let e2 : Nat :=
    match pyFind data sc3 naluStart with
    | some pos => if pos < e1 then pos else e1
    | none => e1
  match pyFind data sc4 naluStart with
  | some pos => if pos < e2 then pos else e2
  | none => e2

/-- Start-code delimited NAL scan of _parse_h264_stream lines 245..278 and
_parse_h265_stream lines 290..323: find the next start code, delimit the
unit up to the following start code or the end of the buffer, skip
zero-length spans, and restart the search just after the found start code.
Fuel bounds the loop; each iteration advances the offset by at least three
bytes. -/
def scScanF : Nat → List Nat → Nat → List (List Nat)
  | 0, _, _ => []
  | fuel + 1, data, offset =>
    if offset < data.length then
      let pr := nextStart data offset
      if pr.1 = data.length then []
      else
        let nstart := pr.1 + pr.2
        let nend := naluEnd data nstart
        let tail := scScanF fuel data nstart
        if nstart < nend then pySlice data nstart nend :: tail else tail
    else []

/-- Start-code delimited NAL scan on a full buffer, with sufficient fuel. -/
def scScan (data : List Nat) (offset : Nat) : List (List Nat) :=
  scScanF (data.length + 1) data offset

/-- Length the scanner attributes to the start code at a position: 4 when
the 4-byte code matches there, else 3. -/
def scLen (data : List Nat) (p : Nat) : Nat :=
  if matchAt data sc4 p then 4 else 3

/-- _parse_h264_stream of sei_parser.py: start-code scan from offset 0, then
H.264 SEI classification and decoding of each delimited unit. -/
def parse_h264_stream (data : List Nat) : List SeiRec :=
  (scScan data 0).flatMap h264SeiOfNalu

/-- _parse_h265_stream of sei_parser.py: start-code scan from offset 0, then
H.265 SEI classification and decoding of each delimited unit. -/
def parse_h265_stream (data : List Nat) : List SeiRec :=
  (scScan data 0).flatMap h265SeiOfNalu

/-- _extract_sei_from_video_data of sei_parser.py lines 180..206: FLV video
tag body; low nibble of byte 0 is the codec id (7 = AVC required), byte 1 the
AVC packet type (1 = NALU data required), bytes 2..4 composition time
(ignored), bytes 5.. a length-prefixed NAL run. -/
def extract_sei_from_video_data (video_data : List Nat) : List SeiRec :=
  if video_data.length < 2 then []
  else
    let codec_id := video_data.getD 0 0 &&& 15
    if codec_id = 7 then
      if video_data.length < 5 then []
      else
        let avc_packet_type := video_data.getD 1 0
        if avc_packet_type = 1 then parse_h264_nalus (video_data.drop 5) else []
    else []

/-- FLV tag loop of _parse_flv (sei_parser.py lines 153..177): read 11-byte
tag headers, stop at a truncated header or body, decode video tags
(tag_type 9) and step over body plus the 4-byte previous-tag-size field.
Fuel bounds the loop; each iteration advances the offset by at least 15. -/
def flvTagsF : Nat → List Nat → Nat → List SeiRec
  | 0, _, _ => []
  | fuel + 1, data, offset =>
    if offset < data.length then
      if data.length < offset + 11 then []
      else
        let tag_type := data.getD offset 0
        let data_size := be24at data (offset + 1)
        if data.length < offset + 11 + data_size then []
        else
          let recs :=
            if tag_type = 9 then
              let video_data := pySlice data (offset + 11) (offset + 11 + data_size)
              if 0 < video_data.length then extract_sei_from_video_data video_data else []
            else []
          recs ++ flvTagsF fuel data (offset + 11 + data_size + 4)
    else []

/-- Container-level failure of sei_parser.py _parse_flv, which raises
ValueError on a bad FLV signature; the spec names this FormatError. -/
inductive FormatError where
  | notFlv : FormatError
deriving DecidableEq

/-- _parse_flv of sei_parser.py lines 142..178: require at least 9 bytes and
the FLV magic, else raise; then walk tags from offset 13 (9-byte header plus
the first previous-tag-size field). -/
def parse_flv (data : List Nat) : Except FormatError (List SeiRec) :=
  if data.length < 9 ∨ data.take 3 ≠ [70, 76, 86] then Except.error FormatError.notFlv
  else Except.ok (flvTagsF (data.length + 1) data 13)

/-- NALU loop inside parse_flv of sei_parser2.py lines 111..127: while at
least 4 bytes remain past nalu_offset, read a 4-byte big-endian size, stop on
overrun, skip empty units, and decode units of type 6 with parse_sei_message
on the bytes after the 1-byte header. -/
def flv2NalusF : Nat → List Nat → Nat → List Msg2
  | 0, _, _ => []
  | fuel + 1, tag_data, nalu_offset =>
    if nalu_offset + 4 ≤ tag_data.length then
      let nalu_size := be32at tag_data nalu_offset
      if tag_data.length < nalu_offset + 4 + nalu_size then []
      else
        let nalu_data := pySlice tag_data (nalu_offset + 4) (nalu_offset + 4 + nalu_size)
        let ms :=
          if nalu_data ≠ [] ∧ nalu_data.headD 0 &&& 31 = 6
          then parse_sei_message (nalu_data.drop 1) else []
        ms ++ flv2NalusF fuel tag_data (nalu_offset + 4 + nalu_size)
    else []

/-- Tag loop of parse_flv in sei_parser2.py lines 92..130, with the
sequential file reads replaced by an offset into the buffer: read an 11-byte
tag header and the tag body, stop on a short read, decode video tags with
AVC codec id 7 and packet type 1 from offset 5, then skip the 4-byte
previous-tag-size field. -/
def flv2TagsF : Nat → List Nat → Nat → List Msg2
  | 0, _, _ => []
  | fuel + 1, data, pos =>
    if data.length < pos + 11 then []
    else
      let tag_type := data.getD pos 0
      let data_size := be24at data (pos + 1)
      if data.length < pos + 11 + data_size then []
      else
        let tag_data := pySlice data (pos + 11) (pos + 11 + data_size)
        let msgs :=
          if tag_type = 9 ∧ 5 < tag_data.length then
            let codec_id := tag_data.getD 0 0 &&& 15
            let packet_type := tag_data.getD 1 0
            if codec_id = 7 ∧ packet_type = 1
            then flv2NalusF (tag_data.length + 1) tag_data 5 else []
          else []
        msgs ++ flv2TagsF fuel data (pos + 11 + data_size + 4)

/-- parse_flv of sei_parser2.py lines 80..136: check the FLV magic on the
9-byte header read; on failure the source prints an error and returns
without producing any SEI message, modelled as none; on success it walks the
tags from offset 13 and the emitted messages are collected in order. -/
def parse_flv2 (data : List Nat) : Option (List Msg2) :=
  if data.take 3 = [70, 76, 86] then some (flv2TagsF (data.length + 1) data 13) else none

/-- Failure outcomes of the MP4 walker model: unboundLocal models the Python
UnboundLocalError raised when box_data_start is read before any branch has
assigned it; outOfFuel marks inputs on which the source loop would not
advance (box_size resolving to 0 via the 64-bit extension), which makes the
Python loop spin forever. -/
inductive Mp4Err where
  | unboundLocal : Mp4Err
  | outOfFuel : Mp4Err
deriving DecidableEq

/-- ASCII bytes of the mdat box type. -/
def mdatBytes : List Nat := [109, 100, 97, 116]

/-- Box walk of _parse_mp4 (sei_parser.py lines 327..363).  The local
box_data_start is threaded as an option, none until a branch assigns it,
exactly as the Python local is unbound until the box_size == 1 or the default
branch runs: the box_size == 0 branch assigns only box_size.  On an mdat box
the body data[box_data_start : offset + box_size] is decoded as length
prefixed H.264 and as start-code H.265, both attempts collected (the
try/except wrappers in the source are irrelevant here because the model
decoders are total). -/
def mp4BoxesF : Nat → List Nat → Nat → Option Nat → Except Mp4Err (List SeiRec)
  | 0, _, _, _ => Except.error Mp4Err.outOfFuel
  | fuel + 1, data, offset, bds =>
    if offset + 8 < data.length then
      let box_size := be32at data offset
      let box_type := pySlice data (offset + 4) (offset + 8)
      let next : Nat × Option Nat :=
        if box_size = 0 then (data.length - offset, bds)
        else if box_size = 1 then (be64at data (offset + 8), some (offset + 16))
        else (box_size, some (offset + 8))
      if box_size = 1 ∧ data.length < offset + 16 then Except.ok []
      else
        if box_type = mdatBytes then
          match next.2 with
          | none => Except.error Mp4Err.unboundLocal
          | some box_data_start =>
            let mdat_data := pySlice data box_data_start (offset + next.1)
            let recs := parse_h264_nalus mdat_data ++ parse_h265_stream mdat_data
            (mp4BoxesF fuel data (offset + next.1) next.2).map (fun l => recs ++ l)
        else mp4BoxesF fuel data (offset + next.1) next.2
    else Except.ok []

/-- _parse_mp4 of sei_parser.py on a full buffer. -/
def parse_mp4 (data : List Nat) : Except Mp4Err (List SeiRec) :=
  mp4BoxesF (data.length + 1) data 0 none

/-- ASCII bytes of hello-world, the scenario-1 payload. -/
def hwBytes : List Nat := [104, 101, 108, 108, 111, 45, 119, 111, 114, 108, 100]

/-- Minimal synthetic FLV buffer of end-to-end scenario 1: 9-byte FLV header,
first previous-tag-size, one video tag (tag_type 9, body 23 bytes: frame
type 1 with AVC codec id 7, packet type 1, composition time 0, then one
length-prefixed NAL unit of 14 bytes: header byte 6, sei_type 5, size 11,
payload hello-world). -/
def c9buf : List Nat :=
  [70, 76, 86, 1, 5, 0, 0, 0, 9] ++ [0, 0, 0, 0] ++
  [9, 0, 0, 23, 0, 0, 0, 0, 0, 0, 0] ++
  [23, 1, 0, 0, 0] ++ [0, 0, 0, 14] ++ [6, 5, 11] ++ hwBytes

/-- Twelve-byte MP4 buffer whose single top-level box has size field 0 and
type mdat, followed by four body bytes. -/
def c2buf : List Nat := [0, 0, 0, 0] ++ mdatBytes ++ [1, 2, 3, 4]

/-- Annex-B buffer with a 4-byte start code at position 0 (while the 3-byte
code also occurs at position 1), one NAL byte 6, then a 3-byte start code
and one NAL byte 7. -/
def c4data : List Nat := [0, 0, 0, 1, 6, 0, 0, 1, 7]

/-- Decoding a type or size with decodeExt consumes at least one byte. -/
theorem decodeExt_length : ∀ (l : List Nat) (v : Nat) (r : List Nat),
    decodeExt l = some (v, r) → r.length < l.length := by
  intro l
  induction l with
  | nil => intro v r h; simp [decodeExt] at h
  | cons b rest ih =>
    intro v r h
    simp only [decodeExt] at h
    by_cases hb : b = 255
    · rw [if_pos hb] at h
      cases hr : decodeExt rest with
      | none => rw [hr] at h; simp at h
      | some pr =>
        rw [hr] at h
        simp at h
        have := ih pr.1 pr.2 (by rw [hr])
        rw [← h.2]
        simp only [List.length_cons]
        omega
    · rw [if_neg hb] at h
      simp at h
      rw [← h.2]
      simp

/-- The remainder of decodeExt2 never grows. -/
theorem decodeExt2_length_le : ∀ l : List Nat, (decodeExt2 l).2.length ≤ l.length := by
  intro l
  induction l with
  | nil => simp [decodeExt2]
  | cons b rest ih =>
    simp only [decodeExt2]
    by_cases hb : b = 255
    · rw [if_pos hb]; simpa using Nat.le_succ_of_le ih
    · rw [if_neg hb]; simp

/-- On a nonempty input decodeExt2 consumes at least one byte. -/
theorem decodeExt2_length_lt (b : Nat) (rest : List Nat) :
    (decodeExt2 (b :: rest)).2.length < (b :: rest).length := by
  simp only [decodeExt2]
  by_cases hb : b = 255
  · rw [if_pos hb]
    have := decodeExt2_length_le rest
    simp only [List.length_cons]
    omega
  · rw [if_neg hb]; simp

/-- The sei_parser.py message loop yields nothing on an empty payload. -/
theorem seiMessagesF_nil (codec : Codec) : ∀ fuel : Nat, seiMessagesF codec fuel [] = [] := by
  intro fuel
  cases fuel with
  | zero => rfl
  | succ f => simp [seiMessagesF, decodeExt]

/-- Record-count bound for the sei_parser.py message loop, any fuel. -/
theorem seiMessagesF_length_le (codec : Codec) :
    ∀ (fuel : Nat) (p : List Nat), (seiMessagesF codec fuel p).length ≤ p.length := by
  intro fuel
  induction fuel with
  | zero => intro p; simp [seiMessagesF]
  | succ f ih =>
    intro p
    cases h1 : decodeExt p with
    | none => simp [seiMessagesF, h1]
    | some pr1 =>
      obtain ⟨t, p1⟩ := pr1
      cases h2 : decodeExt p1 with
      | none => simp [seiMessagesF, h1, h2]
      | some pr2 =>
        obtain ⟨s, p2⟩ := pr2
        simp only [seiMessagesF, h1, h2]
        have hl1 := decodeExt_length p t p1 h1
        have hl2 := decodeExt_length p1 s p2 h2
        have hrec := ih (p2.drop (if p2.length < s then p2.length else s))
        have hdrop : (p2.drop (if p2.length < s then p2.length else s)).length ≤ p2.length := by
          simp [List.length_drop]
        simp only [List.length_cons]
        omega

/-- Record-count bound for the sei_parser2.py message loop, any fuel. -/
theorem parse_sei_messageF_length_le :
    ∀ (fuel : Nat) (p : List Nat), (parse_sei_messageF fuel p).length ≤ p.length := by
  intro fuel
  induction fuel with
  | zero => intro p; simp [parse_sei_messageF]
  | succ f ih =>
    intro p
    cases p with
    | nil => simp [parse_sei_messageF]
    | cons b tail =>
      simp only [parse_sei_messageF]
      by_cases hb : b = 128
      · rw [if_pos hb]; simp
      · rw [if_neg hb]
        have hlt := decodeExt2_length_lt b tail
        have hle := decodeExt2_length_le (decodeExt2 (b :: tail)).2
        have hrec := ih ((decodeExt2 (decodeExt2 (b :: tail)).2).2.drop
          (decodeExt2 (decodeExt2 (b :: tail)).2).1)
        have hdrop : ((decodeExt2 (decodeExt2 (b :: tail)).2).2.drop
            (decodeExt2 (decodeExt2 (b :: tail)).2).1).length
            ≤ (decodeExt2 (decodeExt2 (b :: tail)).2).2.length := by
          simp [List.length_drop]
        split
        · simp
        · simp only [List.length_cons] at *
          omega

/-- C10: the SEI message decoding loop always terminates and emits at most
one record per payload byte: for every fuel and payload, the sei_parser.py
and simple_sei_parser.py loop (seiMessagesF) and the sei_parser2.py loop
(parse_sei_messageF) produce at most length-many records, and a whole SEI
NAL unit yields at most length-many records; every iteration that continues
consumes at least one payload byte. -/
theorem sei_decode_loop_bounded :
    (∀ (codec : Codec) (fuel : Nat) (p : List Nat),
      (seiMessagesF codec fuel p).length ≤ p.length) ∧
    (∀ (fuel : Nat) (p : List Nat), (parse_sei_messageF fuel p).length ≤ p.length) ∧
    (∀ (codec : Codec) (nalu : List Nat), (parse_sei_nalu codec nalu).length ≤ nalu.length) := by
  refine ⟨fun c => seiMessagesF_length_le c, parse_sei_messageF_length_le, ?_⟩
  intro codec nalu
  cases codec with
  | h264 =>
    simp only [parse_sei_nalu, seiMessages]
    split
    · simp
    · have := seiMessagesF_length_le Codec.h264 ((nalu.drop 1).length + 1) (nalu.drop 1)
      have h2 : (nalu.drop 1).length ≤ nalu.length := by simp [List.length_drop]
      omega
  | h265 =>
    simp only [parse_sei_nalu, seiMessages]
    split
    · simp
    · have := seiMessagesF_length_le Codec.h265 ((nalu.drop 2).length + 1) (nalu.drop 2)
      have h2 : (nalu.drop 2).length ≤ nalu.length := by simp [List.length_drop]
      omega

/-- C10 witness: the bound instantiated on a concrete three-byte payload. -/
theorem sei_decode_loop_bounded_witness :
    (seiMessagesF Codec.h264 4 [5, 1, 7]).length ≤ 3 ∧
    (parse_sei_nalu Codec.h264 [6, 5, 1, 7]).length ≤ 4 := by
  constructor
  · exact sei_decode_loop_bounded.1 Codec.h264 4 [5, 1, 7]
  · exact sei_decode_loop_bounded.2.2 Codec.h264 [6, 5, 1, 7]

/-- C1 amended: in the sei_parser.py / simple_sei_parser.py decoder an
overrunning declared size is clamped to the remaining bytes and the record is
emitted with that size and payload length, silently; in sei_parser2.py the
same situation stops the loop without emitting the message. -/
theorem sei_size_clamped_to_remaining :
    (∀ (codec : Codec) (p : List Nat) (t s : Nat) (p1 p2 : List Nat),
      decodeExt p = some (t, p1) → decodeExt p1 = some (s, p2) → p2.length < s →
      seiMessages codec p = [mkSeiRec codec t p2.length p2]) ∧
    (∀ (q : List Nat) (u v : Nat) (q1 q2 : List Nat),
      decodeExt2 q = (u, q1) → decodeExt2 q1 = (v, q2) → q2.length < v →
      q.headD 0 ≠ 128 → parse_sei_message q = []) := by
  constructor
  · intro codec p t s p1 p2 h1 h2 h3
    unfold seiMessages
    simp only [seiMessagesF, h1, h2]
    rw [if_pos h3, List.take_length, List.drop_length, seiMessagesF_nil]
  · intro q u v q1 q2 h1 h2 h3 hh
    cases q with
    | nil => rfl
    | cons b tail =>
      unfold parse_sei_message
      simp only [parse_sei_messageF]
      have hb : b ≠ 128 := by simpa using hh
      rw [if_neg hb, h1]
      simp only []
      rw [h2]
      simp only []
      rw [if_pos h3]

/-- C1 witness: a declared size 11 with one byte remaining is clamped to 1. -/
theorem sei_size_clamped_to_remaining_witness :
    (1 : Nat) < 11 ∧ seiMessages Codec.h264 [5, 11, 104] = [mkSeiRec Codec.h264 5 1 [104]] := by
  refine ⟨by decide, ?_⟩
  exact sei_size_clamped_to_remaining.1 Codec.h264 [5, 11, 104] 5 11 [11, 104] [104] rfl rfl
    (by decide)

/-- C1 counterexample: in sei_parser2.py a message whose declared size 11
exceeds the one remaining byte is dropped entirely (the loop warns and
stops), so no clamped record is emitted. -/
theorem sei2_overrun_emits_no_record : parse_sei_message [5, 11, 104] = [] := rfl

/-- C3 amended: sei_parser2.py parse_sei_message stops at a leading 0x80
byte and emits nothing from the rest of the NAL unit. -/
theorem sei2_stop_bit_terminates : ∀ rest : List Nat, parse_sei_message (128 :: rest) = [] := by
  intro rest
  unfold parse_sei_message
  simp [parse_sei_messageF]

/-- C3 witness: the stop byte followed by two arbitrary bytes. -/
theorem sei2_stop_bit_terminates_witness : parse_sei_message (128 :: [7, 7]) = [] :=
  sei2_stop_bit_terminates [7, 7]

/-- C3 counterexample: sei_parser.py _parse_sei_nalu has no stop-bit check;
on a NAL unit whose payload starts with 0x80 it decodes the stop byte as an
SEI type and emits a record of type 128 instead of stopping. -/
theorem sei1_decodes_stop_bit_as_type :
    (parse_sei_nalu Codec.h264 [6, 128, 0]).map (fun x => (x.sei_type, x.size)) = [(128, 0)] := rfl

/-- C5: a buffer whose first three bytes are not the FLV magic makes
_parse_flv of sei_parser.py raise (the FormatError of the spec) and makes
parse_flv of sei_parser2.py report failure, both without any SEI record. -/
theorem flv_bad_magic_raises :
    ∀ data : List Nat, data.take 3 ≠ [70, 76, 86] →
      parse_flv data = Except.error FormatError.notFlv ∧ parse_flv2 data = none := by
  intro data h
  constructor
  · unfold parse_flv
    rw [if_pos (Or.inr h)]
  · unfold parse_flv2
    rw [if_neg h]

/-- C5 witness: three bytes that are not the magic. -/
theorem flv_bad_magic_raises_witness :
    ([0, 1, 2] : List Nat).take 3 ≠ [70, 76, 86] ∧
    parse_flv [0, 1, 2] = Except.error FormatError.notFlv ∧ parse_flv2 [0, 1, 2] = none :=
  ⟨by decide, flv_bad_magic_raises [0, 1, 2] (by decide)⟩

/-- Decoding k 0xFF continuation bytes and a terminal r yields 255*k + r. -/
theorem decodeExt_replicate : ∀ (k r : Nat) (rest : List Nat), r < 255 →
    decodeExt (List.replicate k 255 ++ r :: rest) = some (255 * k + r, rest) := by
  intro k
  induction k with
  | zero =>
    intro r rest h
    simp only [List.replicate, List.nil_append, decodeExt]
    rw [if_neg (by omega)]
    simp
  | succ k ih =>
    intro r rest h
    have hcons : List.replicate (k + 1) 255 ++ r :: rest
        = 255 :: (List.replicate k 255 ++ r :: rest) := by
      simp [List.replicate_succ]
    rw [hcons]
    have hstep : decodeExt (255 :: (List.replicate k 255 ++ r :: rest))
        = (decodeExt (List.replicate k 255 ++ r :: rest)).map (fun pr => (pr.1 + 255, pr.2)) := by
      simp [decodeExt]
    rw [hstep, ih r rest h]
    have harith : 255 * k + r + 255 = 255 * (k + 1) + r := by ring
    simp [harith]

/-- The spec encoding law written with div and mod agrees with its
255*k + r form. -/
theorem encodeExt_eq (k r : Nat) (h : r < 255) :
    encodeExt (255 * k + r) = List.replicate k 255 ++ [r] := by
  unfold encodeExt
  have hdiv : (255 * k + r) / 255 = k := by omega
  have hmod : (255 * k + r) % 255 = r := by omega
  rw [hdiv, hmod]

/-- C7: the extended type/size rule maps k 0xFF bytes plus terminal r to
255*k + r, re-encoding with the continuation-byte law reproduces the same
bytes, the round trip holds, and in particular 0xFF 0x05 decodes to 260,
also through the full NAL decoder. -/
theorem ext_encoding_roundtrip (k r : Nat) (h : r < 255) :
    (∀ rest : List Nat,
      decodeExt (List.replicate k 255 ++ r :: rest) = some (255 * k + r, rest)) ∧
    encodeExt (255 * k + r) = List.replicate k 255 ++ [r] ∧
    decodeExt (encodeExt (255 * k + r)) = some (255 * k + r, []) ∧
    decodeExt [255, 5] = some (260, []) ∧
    (parse_sei_nalu Codec.h264 [6, 255, 5, 0]).map (fun x => x.sei_type) = [260] := by
  refine ⟨fun rest => decodeExt_replicate k r rest h, encodeExt_eq k r h, ?_, rfl, rfl⟩
  rw [encodeExt_eq k r h]
  exact decodeExt_replicate k r [] h

/-- C7 witness: k = 1, r = 5, the bytes 0xFF 0x05 decoding to 260. -/
theorem ext_encoding_roundtrip_witness :
    (5 : Nat) < 255 ∧ decodeExt (List.replicate 1 255 ++ 5 :: []) = some (255 * 1 + 5, []) :=
  ⟨by decide, (ext_encoding_roundtrip 1 5 (by decide)).1 []⟩

/-- C8: a NAL unit shorter than the codec header (1 byte for H.264, 2 bytes
for H.265) produces no record from classification plus SEI decoding; the
model functions are total, so no exception or out-of-bounds read exists. -/
theorem short_nalu_yields_nothing :
    (∀ nalu : List Nat, nalu.length < 1 → h264SeiOfNalu nalu = []) ∧
    (∀ nalu : List Nat, nalu.length < 2 → h265SeiOfNalu nalu = []) := by
  constructor
  · intro nalu h
    unfold h264SeiOfNalu
    rw [if_neg]
    rintro ⟨h1, -⟩
    omega
  · intro nalu h
    unfold h265SeiOfNalu
    rw [if_neg]
    rintro ⟨h1, -⟩
    omega

/-- C8 witness: the empty unit for H.264 and a one-byte unit for H.265. -/
theorem short_nalu_yields_nothing_witness :
    h264SeiOfNalu [] = [] ∧ h265SeiOfNalu [0] = [] :=
  ⟨short_nalu_yields_nothing.1 [] (by decide), short_nalu_yields_nothing.2 [0] (by decide)⟩

/-- C9: the minimal synthetic FLV of scenario 1 parses to exactly one record
with sei_type 5, size 11, text hello-world and no json view. -/
theorem flv_hello_world_end_to_end :
    parse_flv c9buf = Except.ok [mkSeiRec Codec.h264 5 11 hwBytes] ∧
    (mkSeiRec Codec.h264 5 11 hwBytes).sei_type = 5 ∧
    (mkSeiRec Codec.h264 5 11 hwBytes).size = 11 ∧
    (mkSeiRec Codec.h264 5 11 hwBytes).payload_string = hwBytes ∧
    (mkSeiRec Codec.h264 5 11 hwBytes).payload_json = none :=
  ⟨rfl, rfl, rfl, rfl, rfl⟩

/-- C2: on the buffer whose first top-level box has size field 0 and type
mdat, _parse_mp4 hits the unassigned box_data_start local (Python
UnboundLocalError) instead of scanning the box body. -/
theorem mp4_size_zero_mdat_unbound_local :
    parse_mp4 c2buf = Except.error Mp4Err.unboundLocal := rfl

/-- The length-prefixed scan yields nothing on an empty buffer. -/
theorem lpScanF_nil : ∀ fuel : Nat, lpScanF fuel [] = [] := by
  intro fuel
  cases fuel <;> rfl

/-- The code length-prefixed scan equals the claim-worded scan, any fuel. -/
theorem lpScanF_eq_lpSpecF : ∀ (fuel : Nat) (data : List Nat),
    lpScanF fuel data = lpSpecF fuel data := by
  intro fuel
  induction fuel with
  | zero => intro data; rfl
  | succ f ih =>
    intro data
    match data with
    | [] => rfl
    | [a] => rfl
    | [a, b] => rfl
    | [a, b, c] => rfl
    | a :: b :: c :: d :: rest =>
      simp only [lpScanF, lpSpecF, List.getD_cons_zero, List.getD_cons_succ,
        List.drop_succ_cons, List.drop_zero, List.length_cons]
      have h4 : 4 ≤ rest.length + 1 + 1 + 1 + 1 := by omega
      have hsub : rest.length + 1 + 1 + 1 + 1 - 4 = rest.length := by omega
      rw [if_pos h4, hsub, ih (rest.drop (be32 a b c d))]

/-- Relation between the simple_sei_parser scan and the sei_parser.py scan:
they agree except that the former may drop one trailing zero-length unit
encoded in the final four bytes. -/
theorem extractNalusScanF_rel : ∀ (fuel : Nat) (data : List Nat),
    extractNalusScanF fuel data = lpScanF fuel data ∨
    lpScanF fuel data = extractNalusScanF fuel data ++ [[]] := by
  intro fuel
  induction fuel with
  | zero => intro data; exact Or.inl rfl
  | succ f ih =>
    intro data
    match data with
    | [] => exact Or.inl rfl
    | [a] => exact Or.inl rfl
    | [a, b] => exact Or.inl rfl
    | [a, b, c] => exact Or.inl rfl
    | [a, b, c, d] =>
      by_cases hn : be32 a b c d = 0
      · right
        simp [lpScanF, extractNalusScanF, hn, lpScanF_nil]
      · left
        simp [lpScanF, extractNalusScanF, Nat.pos_of_ne_zero hn]
    | a :: b :: c :: d :: e :: rest =>
      simp only [lpScanF, extractNalusScanF]
      by_cases hov : (e :: rest).length < be32 a b c d
      · rw [if_pos hov, if_pos hov]
        exact Or.inl rfl
      · rw [if_neg hov, if_neg hov]
        cases ih ((e :: rest).drop (be32 a b c d)) with
        | inl h => exact Or.inl (by rw [h])
        | inr h =>
          right
          rw [h]
          rfl

/-- C6 amended: _parse_h264_nalus scans exactly the claim-worded sequence
(length fields fully satisfiable, in order, stop at fewer than four remaining
bytes or overrun); extract_sei_from_nalus scans the same sequence except
that, requiring five remaining bytes to read a length field, it may drop one
trailing zero-length NAL unit; neither ever yields anything past the first
stopping point. -/
theorem length_prefixed_scan_spec :
    ∀ data : List Nat,
      lpScan data = lpSpec data ∧
      (extractNalusScan data = lpScan data ∨
        lpScan data = extractNalusScan data ++ [[]]) := by
  intro data
  exact ⟨lpScanF_eq_lpSpecF (data.length + 1) data,
    extractNalusScanF_rel (data.length + 1) data⟩

/-- C6 witness: a five-byte buffer holding one one-byte NAL unit. -/
theorem length_prefixed_scan_spec_witness :
    lpScan [0, 0, 0, 1, 9] = lpSpec [0, 0, 0, 1, 9] ∧
    (extractNalusScan [0, 0, 0, 1, 9] = lpScan [0, 0, 0, 1, 9] ∨
      lpScan [0, 0, 0, 1, 9] = extractNalusScan [0, 0, 0, 1, 9] ++ [[]]) :=
  length_prefixed_scan_spec [0, 0, 0, 1, 9]

/-- C6 counterexample: on a four-byte buffer encoding one zero-length NAL
unit, extract_sei_from_nalus yields nothing although the length field is
fully satisfiable (four bytes remain, not fewer), while the claim-worded
scanner yields the empty unit. -/
theorem extract_nalus_drops_trailing_empty :
    extractNalusScan [0, 0, 0, 0] = [] ∧ lpSpec [0, 0, 0, 0] = [[]] :=
  ⟨rfl, rfl⟩

/-- A nonempty pattern occurrence lies within the buffer. -/
theorem matchAt_bound {data pat : List Nat} {p : Nat} (hp : pat ≠ [])
    (h : matchAt data pat p) : p + pat.length ≤ data.length := by
  unfold matchAt at h
  have hl := congrArg List.length h
  simp only [List.length_take, List.length_drop] at hl
  have hpos : 0 < pat.length := List.length_pos.mpr hp
  omega

/-- The two start codes cannot both occur at the same position. -/
theorem not_sc3_and_sc4 {data : List Nat} {p : Nat} (h3 : matchAt data sc3 p)
    (h4 : matchAt data sc4 p) : False := by
  have h3a : List.take 3 (data.drop p) = [0, 0, 1] := h3
  have h4a : List.take 4 (data.drop p) = [0, 0, 0, 1] := h4
  have key : List.take 3 (List.take 4 (data.drop p)) = List.take 3 (data.drop p) := by
    rw [List.take_take]
    norm_num
  rw [h4a, h3a] at key
  simp at key

/-- Just after a 4-byte start code the 3-byte start code occurs. -/
theorem sc4_next_sc3 {data : List Nat} {p : Nat} (h4 : matchAt data sc4 p) :
    matchAt data sc3 (p + 1) := by
  have h4a : List.take 4 (data.drop p) = [0, 0, 0, 1] := h4
  have key : List.drop 1 (List.take 4 (data.drop p))
      = List.take 3 (List.drop 1 (data.drop p)) := by
    rw [List.drop_take]
  rw [h4a, List.drop_drop] at key
  show List.take 3 (data.drop (p + 1)) = [0, 0, 1]
  rw [← key]
  rfl

/-- Success condition of findSuffix: the returned index is the first match. -/
theorem findSuffix_spec : ∀ (l pat : List Nat) (j : Nat), findSuffix pat l = some j →
    (l.drop j).take pat.length = pat ∧ ∀ i, i < j → (l.drop i).take pat.length ≠ pat := by
  intro l
  induction l with
  | nil => intro pat j h; simp [findSuffix] at h
  | cons b rest ih =>
    intro pat j h
    simp only [findSuffix] at h
    by_cases hm : ((b :: rest).take pat.length) = pat
    · rw [if_pos hm] at h
      have hj : j = 0 := by
        have := Option.some.injEq 0 j ▸ h
        omega
      subst hj
      exact ⟨hm, fun i hi => absurd hi (by omega)⟩
    · rw [if_neg hm] at h
      cases hf : findSuffix pat rest with
      | none => rw [hf] at h; simp at h
      | some j2 =>
        rw [hf] at h
        simp only [Option.map_some'] at h
        have hj : j = j2 + 1 := by
          have := Option.some.injEq (j2 + 1) j ▸ h
          omega
        subst hj
        obtain ⟨hmatch, hmin⟩ := ih pat j2 hf
        refine ⟨by simpa using hmatch, ?_⟩
        intro i hi
        cases i with
        | zero => simpa using hm
        | succ i2 =>
          have hi2 : i2 < j2 := by omega
          simpa using hmin i2 hi2

/-- Failure condition of findSuffix for a nonempty pattern: no match. -/
theorem findSuffix_none : ∀ (l pat : List Nat), pat ≠ [] → findSuffix pat l = none →
    ∀ i, (l.drop i).take pat.length ≠ pat := by
  intro l
  induction l with
  | nil =>
    intro pat hp _ i
    simp only [List.drop_nil, List.take_nil]
    exact fun he => hp he.symm
  | cons b rest ih =>
    intro pat hp h i
    simp only [findSuffix] at h
    by_cases hm : ((b :: rest).take pat.length) = pat
    · rw [if_pos hm] at h; simp at h
    · rw [if_neg hm] at h
      have hrest : findSuffix pat rest = none := by
        cases hf : findSuffix pat rest with
        | none => rfl
        | some j2 => rw [hf] at h; simp at h
      cases i with
      | zero => simpa using hm
      | succ i2 => simpa using ih pat hp hrest i2

/-- Success condition of pyFind: first occurrence at or after start. -/
theorem pyFind_spec {data pat : List Nat} {start p : Nat}
    (h : pyFind data pat start = some p) :
    start ≤ p ∧ matchAt data pat p ∧ ∀ q, start ≤ q → q < p → ¬ matchAt data pat q := by
  unfold pyFind at h
  cases hf : findSuffix pat (data.drop start) with
  | none => rw [hf] at h; simp at h
  | some j =>
    rw [hf] at h
    simp only [Option.map_some'] at h
    have hpj : p = j + start := by
      have := Option.some.injEq (j + start) p ▸ h
      omega
    subst hpj
    obtain ⟨hmatch, hmin⟩ := findSuffix_spec (data.drop start) pat j hf
    refine ⟨by omega, ?_, ?_⟩
    · show (data.drop (j + start)).take pat.length = pat
      rw [Nat.add_comm j start, ← List.drop_drop]
      exact hmatch
    · intro q hq hlt hmq
      have hi : q - start < j := by omega
      apply hmin (q - start) hi
      have hmq2 : (data.drop q).take pat.length = pat := hmq
      rw [List.drop_drop]
      have he : start + (q - start) = q := by omega
      rw [he]
      exact hmq2

/-- Failure condition of pyFind for a nonempty pattern. -/
theorem pyFind_none {data pat : List Nat} {start : Nat} (hp : pat ≠ [])
    (h : pyFind data pat start = none) :
    ∀ q, start ≤ q → ¬ matchAt data pat q := by
  unfold pyFind at h
  have hf : findSuffix pat (data.drop start) = none := by
    cases hf2 : findSuffix pat (data.drop start) with
    | none => rfl
    | some j => rw [hf2] at h; simp at h
  intro q hq hmq
  apply findSuffix_none (data.drop start) pat hp hf (q - start)
  have hmq2 : (data.drop q).take pat.length = pat := hmq
  rw [List.drop_drop]
  have he : start + (q - start) = q := by omega
  rw [he]
  exact hmq2

/-- Completeness of pyFind: an existing occurrence bounds the result. -/
theorem pyFind_le {data pat : List Nat} {start q : Nat} (hp : pat ≠ [])
    (hm : matchAt data pat q) (hge : start ≤ q) :
    ∃ p, pyFind data pat start = some p ∧ p ≤ q := by
  cases hf : pyFind data pat start with
  | none => exact absurd hm (pyFind_none hp hf q hge)
  | some p =>
    refine ⟨p, rfl, ?_⟩
    by_contra hgt
    exact (pyFind_spec hf).2.2 q hge (by omega) hm

/-- The search of the start-code scanner returns the position-minimal start
code with its length, as the claim requires. -/
theorem nextStart_eq (data : List Nat) (offset p : Nat)
    (hge : offset ≤ p) (hsc : isStartCode data p)
    (hmin : ∀ q, offset ≤ q → isStartCode data q → p ≤ q) :
    nextStart data offset = (p, scLen data p) := by
  have hsc3ne : sc3 ≠ [] := by simp [sc3]
  have hsc4ne : sc4 ≠ [] := by simp [sc4]
  by_cases h4 : matchAt data sc4 p
  · have hb : p + 4 ≤ data.length := by
      have := matchAt_bound hsc4ne h4
      simpa [sc4] using this
    have h3n : matchAt data sc3 (p + 1) := sc4_next_sc3 h4
    obtain ⟨p3, hf3, hle3⟩ := @pyFind_le data sc3 offset (p + 1) hsc3ne h3n (by omega)
    obtain ⟨hge3, hm3, -⟩ := pyFind_spec hf3
    have hp3lo : p ≤ p3 := hmin p3 hge3 (Or.inl hm3)
    have hp3ne : p3 ≠ p := fun he => not_sc3_and_sc4 (he ▸ hm3) h4
    have hp3 : p3 = p + 1 := by omega
    obtain ⟨p4, hf4, hle4⟩ := @pyFind_le data sc4 offset p hsc4ne h4 hge
    obtain ⟨hge4, hm4, -⟩ := pyFind_spec hf4
    have hp4 : p4 = p := by
      have := hmin p4 hge4 (Or.inr hm4)
      omega
    simp only [nextStart, hf3, hf4]
    rw [hp3, hp4]
    rw [if_pos (show p + 1 < data.length by omega)]
    rw [if_pos (show p < p + 1 by omega)]
    unfold scLen
    rw [if_pos h4]
  · have h3 : matchAt data sc3 p := hsc.resolve_right h4
    have hb : p + 3 ≤ data.length := by
      have := matchAt_bound hsc3ne h3
      simpa [sc3] using this
    obtain ⟨p3, hf3, hle3⟩ := @pyFind_le data sc3 offset p hsc3ne h3 hge
    obtain ⟨hge3, hm3, -⟩ := pyFind_spec hf3
    have hp3 : p3 = p := by
      have := hmin p3 hge3 (Or.inl hm3)
      omega
    cases hf4 : pyFind data sc4 offset with
    | none =>
      simp only [nextStart, hf3, hf4]
      rw [hp3]
      rw [if_pos (show p < data.length by omega)]
      unfold scLen
      rw [if_neg h4]
    | some p4 =>
      obtain ⟨hge4, hm4, -⟩ := pyFind_spec hf4
      have hp4 : p < p4 := by
        have h1 := hmin p4 hge4 (Or.inr hm4)
        have h2 : p4 ≠ p := fun he => not_sc3_and_sc4 h3 (he ▸ hm4)
        omega
      simp only [nextStart, hf3, hf4]
      rw [hp3]
      rw [if_pos (show p < data.length by omega)]
      rw [if_neg (show ¬ p4 < p by omega)]
      unfold scLen
      rw [if_neg h4]

/-- The NAL-unit end search returns the position-minimal following start
code of either length, or the end of the buffer. -/
theorem naluEnd_spec (data : List Nat) (start : Nat) (hlen : start ≤ data.length) :
    start ≤ naluEnd data start ∧ naluEnd data start ≤ data.length ∧
    (∀ q, start ≤ q → q < naluEnd data start → ¬ isStartCode data q) ∧
    (naluEnd data start = data.length ∨ isStartCode data (naluEnd data start)) := by
  have hsc3ne : sc3 ≠ [] := by simp [sc3]
  have hsc4ne : sc4 ≠ [] := by simp [sc4]
  cases hf3 : pyFind data sc3 start with
  | none =>
    cases hf4 : pyFind data sc4 start with
    | none =>
      have he : naluEnd data start = data.length := by
        simp only [naluEnd, hf3, hf4]
      rw [he]
      refine ⟨hlen, le_refl _, ?_, Or.inl rfl⟩
      intro q hq _ hsc
      cases hsc with
      | inl h => exact pyFind_none hsc3ne hf3 q hq h
      | inr h => exact pyFind_none hsc4ne hf4 q hq h
    | some p4 =>
      obtain ⟨hge4, hm4, -⟩ := pyFind_spec hf4
      exact absurd (sc4_next_sc3 hm4) (pyFind_none hsc3ne hf3 (p4 + 1) (by omega))
  | some p3 =>
    obtain ⟨hge3, hm3, hmin3⟩ := pyFind_spec hf3
    have hb3 : p3 + 3 ≤ data.length := by
      have := matchAt_bound hsc3ne hm3
      simpa [sc3] using this
    cases hf4 : pyFind data sc4 start with
    | none =>
      have he : naluEnd data start = p3 := by
        simp only [naluEnd, hf3, hf4]
        rw [if_pos (show p3 < data.length by omega)]
      rw [he]
      refine ⟨hge3, by omega, ?_, Or.inr (Or.inl hm3)⟩
      intro q hq hlt hsc
      cases hsc with
      | inl h => exact hmin3 q hq hlt h
      | inr h => exact pyFind_none hsc4ne hf4 q hq h
    | some p4 =>
      obtain ⟨hge4, hm4, hmin4⟩ := pyFind_spec hf4
      by_cases hlt : p4 < p3
      · have he : naluEnd data start = p4 := by
          simp only [naluEnd, hf3, hf4]
          rw [if_pos (show p3 < data.length by omega), if_pos hlt]
        rw [he]
        have hb4 : p4 + 4 ≤ data.length := by
          have := matchAt_bound hsc4ne hm4
          simpa [sc4] using this
        refine ⟨hge4, by omega, ?_, Or.inr (Or.inr hm4)⟩
        intro q hq hq2 hsc
        cases hsc with
        | inl h => exact hmin3 q hq (by omega) h
        | inr h => exact hmin4 q hq hq2 h
      · have he : naluEnd data start = p3 := by
          simp only [naluEnd, hf3, hf4]
          rw [if_pos (show p3 < data.length by omega), if_neg hlt]
        rw [he]
        refine ⟨hge3, by omega, ?_, Or.inr (Or.inl hm3)⟩
        intro q hq hq2 hsc
        cases hsc with
        | inl h => exact hmin3 q hq hq2 h
        | inr h => exact hmin4 q hq (by omega) h

/-- C4: at every step the start-code scanner considers both the 3-byte and
4-byte start codes and delimits with the position-minimal one: when p is the
least start-code position at or after the current offset, the search returns
(p, its length); the unit end e = naluEnd after that start code is the least
following start-code position of either length, or the end of the buffer;
and one scanner step emits exactly the span from just after the start code
to e (skipped when empty) before continuing just after the start code. -/
theorem startcode_scanner_min_both_lengths (data : List Nat) (fuel offset p : Nat)
    (hge : offset ≤ p) (hsc : isStartCode data p)
    (hmin : ∀ q, offset ≤ q → isStartCode data q → p ≤ q) :
    nextStart data offset = (p, scLen data p) ∧
    (p + scLen data p ≤ naluEnd data (p + scLen data p) ∧
      naluEnd data (p + scLen data p) ≤ data.length ∧
      (∀ q, p + scLen data p ≤ q → q < naluEnd data (p + scLen data p) →
        ¬ isStartCode data q) ∧
      (naluEnd data (p + scLen data p) = data.length ∨
        isStartCode data (naluEnd data (p + scLen data p)))) ∧
    scScanF (fuel + 1) data offset =
      (if p + scLen data p < naluEnd data (p + scLen data p)
        then [pySlice data (p + scLen data p) (naluEnd data (p + scLen data p))] else [])
        ++ scScanF fuel data (p + scLen data p) := by
  have hsc3ne : sc3 ≠ [] := by simp [sc3]
  have hsc4ne : sc4 ≠ [] := by simp [sc4]
  have hns := nextStart_eq data offset p hge hsc hmin
  have hp3le : p + 3 ≤ data.length := by
    cases hsc with
    | inl h3 =>
      have := matchAt_bound hsc3ne h3
      simpa [sc3] using this
    | inr h4 =>
      have h5 := matchAt_bound hsc4ne h4
      have h6 : p + 4 ≤ data.length := by simpa [sc4] using h5
      omega
  have hplen : p + scLen data p ≤ data.length := by
    unfold scLen
    by_cases h4 : matchAt data sc4 p
    · rw [if_pos h4]
      have := matchAt_bound hsc4ne h4
      simpa [sc4] using this
    · rw [if_neg h4]
      omega
  have hne := naluEnd_spec data (p + scLen data p) hplen
  refine ⟨hns, hne, ?_⟩
  have hofflt : offset < data.length := by omega
  simp only [scScanF]
  rw [if_pos hofflt, hns]
  simp only []
  rw [if_neg (show ¬ p = data.length by omega)]
  by_cases hemit : p + scLen data p < naluEnd data (p + scLen data p)
  · rw [if_pos hemit, if_pos hemit]
    rfl
  · rw [if_neg hemit, if_neg hemit]
    rfl

/-- C4 witness: on the buffer with a 4-byte start code at position 0 (and a
3-byte match inside it at position 1), the scanner picks position 0 with
length 4 and one step emits the span up to the next start code at 5. -/
theorem startcode_scanner_min_both_lengths_witness :
    isStartCode c4data 0 ∧
    nextStart c4data 0 = (0, scLen c4data 0) ∧
    scScanF 2 c4data 0 =
      (if 0 + scLen c4data 0 < naluEnd c4data (0 + scLen c4data 0)
        then [pySlice c4data (0 + scLen c4data 0) (naluEnd c4data (0 + scLen c4data 0))]
        else [])
        ++ scScanF 1 c4data (0 + scLen c4data 0) := by
  have h := startcode_scanner_min_both_lengths c4data 1 0 0 (Nat.le_refl 0) (by decide)
    (fun q h1 h2 => Nat.zero_le q)
  exact ⟨by decide, h.1, h.2.2⟩
